import Mathlib

/-!
Shallow embedding of the divergent-bar trading strategy
(src/src/strategy/divergent_bar.py) and of the suggestion parser
(src/src/strategy/strategy_ai.py).

Prices are modelled as rationals.  A pandas Series value that is NaN is
modelled as the Option value none; every pandas comparison involving a
NaN yields False, which is mirrored by the Option-aware comparison
optLtB below (none compared with anything is false).
-/

/-- Rolling mean with window w, as produced by
pd.Series(xs).rolling(window := w).mean() evaluated at index j:
defined (some) exactly when j+1 is at least w and j is in range,
and then equal to the mean of xs over positions j+1-w .. j. -/
def sma (w : ℕ) (xs : List ℚ) (j : ℕ) : Option ℚ :=
  if w ≤ j + 1 ∧ j < xs.length then
    some (((xs.drop (j + 1 - w)).take w).sum / (w : ℚ))
  else none

/-- pd.Series.shift(s): the value at index i is the original value at
index i - s, and the first s indices become NaN (none). -/
def shiftOpt (s : ℕ) (f : ℕ → Option ℚ) (i : ℕ) : Option ℚ :=
  if i < s then none else f (i - s)

/-- The value of a raw price column at index i (never NaN inside range). -/
def atIdx (xs : List ℚ) (i : ℕ) : Option ℚ :=
  if i < xs.length then some (xs.getD i 0) else none

/-- pandas-style strict comparison: a < b is False whenever either side
is NaN (none). -/
def optLtB : Option ℚ → Option ℚ → Bool
  | some a, some b => decide (a < b)
  | _, _ => false

/-- pandas skipna minimum of two values: NaN entries are ignored. -/
def omin : Option ℚ → Option ℚ → Option ℚ
  | none, b => b
  | some a, none => some a
  | some a, some b => some (min a b)

/-- pandas skipna maximum of two values: NaN entries are ignored. -/
def omax : Option ℚ → Option ℚ → Option ℚ
  | none, b => b
  | some a, none => some a
  | some a, some b => some (max a b)

/-- median_price = (high + low) / 2, elementwise over the two columns. -/
def medians (highs lows : List ℚ) : List ℚ :=
  List.zipWith (fun h l => (h + l) / 2) highs lows

/-- ao_indicator: AO = SMA(median price, 5) - SMA(median price, 34);
NaN (none) whenever either rolling mean is NaN. -/
def ao (highs lows : List ℚ) (i : ℕ) : Option ℚ :=
  match sma 5 (medians highs lows) i, sma 34 (medians highs lows) i with
  | some a, some b => some (a - b)
  | _, _ => none

/-- alligator_indicator, jaw line: 13-period SMA of Close shifted 8 bars. -/
def jaw (closes : List ℚ) : ℕ → Option ℚ := shiftOpt 8 (sma 13 closes)

/-- alligator_indicator, teeth line: 8-period SMA of Close shifted 5 bars. -/
def teeth (closes : List ℚ) : ℕ → Option ℚ := shiftOpt 5 (sma 8 closes)

/-- alligator_indicator, lips line: 5-period SMA of Close shifted 3 bars. -/
def lips (closes : List ℚ) : ℕ → Option ℚ := shiftOpt 3 (sma 5 closes)

/-- min_alligator = pd.concat([jaw, teeth, lips], axis := 1).min(axis := 1)
(skipna semantics: rows where some lines are NaN use the remaining ones). -/
def minAlligator (closes : List ℚ) (i : ℕ) : Option ℚ :=
  omin (omin (jaw closes i) (teeth closes i)) (lips closes i)

/-- max_alligator, skipna maximum of the three lines. -/
def maxAlligator (closes : List ℚ) (i : ℕ) : Option ℚ :=
  omax (omax (jaw closes i) (teeth closes i)) (lips closes i)

/-- upper_half = close > (high + low) / 2. -/
def upperHalf (highs lows closes : List ℚ) (i : ℕ) : Bool :=
  decide ((highs.getD i 0 + lows.getD i 0) / 2 < closes.getD i 0)

/-- lower_half = close < (high + low) / 2. -/
def lowerHalf (highs lows closes : List ℚ) (i : ℕ) : Bool :=
  decide (closes.getD i 0 < (highs.getD i 0 + lows.getD i 0) / 2)

/-- local_min = low < min(low.shift(1), low.shift(2), low.shift(3))
(skipna minimum; False while all three shifts are NaN). -/
def localMin (lows : List ℚ) (i : ℕ) : Bool :=
  optLtB (atIdx lows i)
    (omin (omin (shiftOpt 1 (atIdx lows) i) (shiftOpt 2 (atIdx lows) i))
      (shiftOpt 3 (atIdx lows) i))

/-- local_max = high > max(high.shift(1), high.shift(2), high.shift(3)). -/
def localMax (highs : List ℚ) (i : ℕ) : Bool :=
  optLtB
    (omax (omax (shiftOpt 1 (atIdx highs) i) (shiftOpt 2 (atIdx highs) i))
      (shiftOpt 3 (atIdx highs) i))
    (atIdx highs i)

/-- no_cross = (high < min_alligator) or (low > max_alligator):
the bar does not cross any alligator line. -/
def noCross (highs lows closes : List ℚ) (i : ℕ) : Bool :=
  optLtB (atIdx highs i) (minAlligator closes i) ||
    optLtB (maxAlligator closes i) (atIdx lows i)

/-- ao_down = ao < ao.shift(1). -/
def aoDown (highs lows : List ℚ) (i : ℕ) : Bool :=
  optLtB (ao highs lows i) (shiftOpt 1 (ao highs lows) i)

/-- ao_up = ao > ao.shift(1). -/
def aoUp (highs lows : List ℚ) (i : ℕ) : Bool :=
  optLtB (shiftOpt 1 (ao highs lows) i) (ao highs lows i)

/-- bullish = upper_half and ao_down and local_min and (open < close)
and no_cross, exactly the conjunction the code computes. -/
def bullishBar (opens highs lows closes : List ℚ) (i : ℕ) : Bool :=
  upperHalf highs lows closes i && aoDown highs lows i && localMin lows i &&
    decide (opens.getD i 0 < closes.getD i 0) && noCross highs lows closes i

/-- bearish = lower_half and ao_up and local_max and (open > close)
and no_cross. -/
def bearishBar (opens highs lows closes : List ℚ) (i : ℕ) : Bool :=
  lowerHalf highs lows closes i && aoUp highs lows i && localMax highs i &&
    decide (closes.getD i 0 < opens.getD i 0) && noCross highs lows closes i

/-- divergent_bar_indicator: result starts at 0, then result[bullish] is
set to 1 and afterwards result[bearish] to -1 (so a bearish marking would
overwrite a bullish one; the two cannot in fact hold together). -/
def divergentSignal (opens highs lows closes : List ℚ) (i : ℕ) : ℤ :=
  if bearishBar opens highs lows closes i then -1
  else if bullishBar opens highs lows closes i then 1
  else 0

/-! Concrete 35-bar history (indices 0 .. 34) used to evaluate the
detector at bar 34.  Bars 0 .. 28 are flat at 5; bar 29 has a tall upper
wick (High 60) so that the fast oscillator average falls at bar 34;
bars 31 .. 33 form descending highs/lows well above the alligator lines;
bar 34 is an up-close bar whose whole range lies above the envelope. -/

def c1opens : List ℚ := List.replicate 31 5 ++ [26, 27, 26, 201/10]

def c1highs : List ℚ := List.replicate 29 5 ++ [60, 5, 29, 28, 27, 21]

def c1lows : List ℚ := List.replicate 31 5 ++ [25, 24, 23, 20]

def c1closes : List ℚ := List.replicate 31 5 ++ [26, 26, 24, 209/10]

/-! The order/position state machine of the DivergentBar strategy.
A pending stop-entry order carries its direction, its trigger (stop)
price, and its initial stop-loss; a trade carries a signed size
(positive = long, as in the backtesting library), its entry price and
its current stop-loss.  The strategy state is the list of pending
orders, the list of open trades, and the cancel_price scalar. -/

structure PendingOrder where
  isLong : Bool
  stop : ℚ
  sl : ℚ
deriving DecidableEq

structure Trade where
  size : ℤ
  entryPrice : ℚ
  sl : Option ℚ
deriving DecidableEq

structure StratState where
  orders : List PendingOrder
  trades : List Trade
  cancelPrice : Option ℚ
deriving DecidableEq

/-- self.position.size: the sum of the open trades' signed sizes. -/
def positionSize (s : StratState) : ℤ := (s.trades.map Trade.size).sum

/-- The long stop-entry order placed by place_divergent_order for
direction > 0: stop = high, sl = low - (high - low). -/
def newLongOrder (high low : ℚ) : PendingOrder :=
  ⟨true, high, low - (high - low)⟩

/-- The short stop-entry order placed for direction < 0:
stop = low, sl = high + (high - low). -/
def newShortOrder (high low : ℚ) : PendingOrder :=
  ⟨false, low, high + (high - low)⟩

/-- place_divergent_order(direction): place the stop-entry order for the
current bar and record the cancel threshold (the bar's low for a long
order, the bar's high for a short order). -/
def placeDivergentOrder (direction : ℤ) (high low : ℚ) (s : StratState) :
    StratState :=
  if 0 < direction then
    { s with orders := s.orders ++ [newLongOrder high low],
             cancelPrice := some low }
  else if direction < 0 then
    { s with orders := s.orders ++ [newShortOrder high low],
             cancelPrice := some high }
  else s

/-- An order survives the cancel-price sweep in next():
a long order is cancelled when cancel_price >= Low[-1], a short order
when cancel_price <= High[-1]. -/
def keepOrder (cp high low : ℚ) (o : PendingOrder) : Bool :=
  if o.isLong then decide (cp < low) else decide (high < cp)

/-- The stale-order sweep of next(): runs only when cancel_price is set
and some order is pending, and drops every order invalidated by the
current bar's extreme. -/
def cancelByPrice (s : StratState) (high low : ℚ) : StratState :=
  match s.cancelPrice with
  | none => s
  | some cp =>
    if s.orders.isEmpty then s
    else { s with orders := s.orders.filter (keepOrder cp high low) }

/-- python list slicing lst[-w:]; note that lst[-0:] is the whole list. -/
def lastWindow (w : ℕ) (l : List ℚ) : List ℚ :=
  if w = 0 then l else l.drop (l.length - w)

/-- numpy max over a window (the strategy only evaluates it on nonempty
windows; the empty case is given an arbitrary value 0). -/
def listMax : List ℚ → ℚ
  | [] => 0
  | x :: xs => xs.foldl max x

/-- numpy min over a window. -/
def listMin : List ℚ → ℚ
  | [] => 0
  | x :: xs => xs.foldl min x

/-- The condition trade.sl is None or x > trade.sl of the long branch
of update_profit_trailing_sl. -/
def slBelow (sl : Option ℚ) (x : ℚ) : Bool :=
  match sl with
  | none => true
  | some c => decide (c < x)

/-- The condition trade.sl is None or x < trade.sl of the short branch. -/
def slAbove (sl : Option ℚ) (x : ℚ) : Bool :=
  match sl with
  | none => true
  | some c => decide (x < c)

/-- The per-trade body of update_profit_trailing_sl: a long trade takes
the structural long level only when it exceeds the entry price and the
current stop (or the stop is unset); symmetrically for a short trade. -/
def updateTradeSl (structL structS : ℚ) (t : Trade) : Trade :=
  if 0 < t.size then
    if t.entryPrice < structL then
      if slBelow t.sl structL then { t with sl := some structL } else t
    else t
  else if t.size < 0 then
    if structS < t.entryPrice then
      if slAbove t.sl structS then { t with sl := some structS } else t
    else t
  else t

/-- update_profit_trailing_sl(n, buffer): no-op when position.size is 0;
otherwise window = min(len(Close), n) and every trade is updated with
structural levels max(Low[-window:]) - buffer and
min(High[-window:]) + buffer.  In the data model the High, Low and Close
columns have one entry per bar, so their lengths coincide. -/
def updateProfitTrailingSl (s : StratState) (highs lows closes : List ℚ)
    (n : ℕ) (buffer : ℚ) : StratState :=
  if positionSize s = 0 then s
  else
    { s with trades := s.trades.map (updateTradeSl
        (listMax (lastWindow (min closes.length n) lows) - buffer)
        (listMin (lastWindow (min closes.length n) highs) + buffer)) }

/-- next(): the per-bar decision procedure.  With an open position, an
opposite nonzero signal closes the position and places the reversal
order at once; otherwise the trailing update runs only when the
position's unrealized profit is positive.  With no position, the
cancel-price sweep runs first, and a nonzero signal cancels every
remaining pending order and places a fresh one from the current bar.
The signal and the unrealized profit pl are inputs handed to the
strategy by the execution engine for the current bar. -/
def next (s : StratState) (highs lows closes : List ℚ) (signal : ℤ)
    (pl : ℚ) : StratState :=
  if positionSize s ≠ 0 then
    if signal ≠ 0 ∧ ((0 < signal ∧ positionSize s < 0) ∨
        (signal < 0 ∧ 0 < positionSize s)) then
      placeDivergentOrder signal (highs.getLastD 0) (lows.getLastD 0)
        { s with trades := [] }
    else if 0 < pl then updateProfitTrailingSl s highs lows closes 3 0
    else s
  else
    if signal = 0 then cancelByPrice s (highs.getLastD 0) (lows.getLastD 0)
    else
      placeDivergentOrder signal (highs.getLastD 0) (lows.getLastD 0)
        { cancelByPrice s (highs.getLastD 0) (lows.getLastD 0) with
            orders := [] }

/-- The trade created by the execution engine when it fills a pending
stop-entry order (unit size, entry at the trigger price, initial
stop-loss as stored on the order). -/
def mkTrade (o : PendingOrder) : Trade :=
  ⟨if o.isLong then 1 else -1, o.stop, some o.sl⟩

/-- States reachable from the flat initial state under the strategy step
next() and the two engine events of the external interface: filling one
pending order into a trade, and closing one open trade (stop-loss hit). -/
inductive Reachable : StratState → Prop
  | init : Reachable ⟨[], [], none⟩
  | step_next (s highs lows closes signal pl) : Reachable s →
      Reachable (next s highs lows closes signal pl)
  | step_fill (s o) : Reachable s → o ∈ s.orders →
      Reachable ⟨s.orders.erase o, s.trades ++ [mkTrade o], s.cancelPrice⟩
  | step_stop (s t) : Reachable s → t ∈ s.trades →
      Reachable ⟨s.orders, s.trades.erase t, s.cancelPrice⟩

/-- The single-order, single-position invariant carried by the state
machine, together with the facts needed to preserve it: a state with an
open trade has no pending order, and every open trade has nonzero size. -/
def StateInv (s : StratState) : Prop :=
  s.orders.length ≤ 1 ∧ s.trades.length ≤ 1 ∧
    (s.trades ≠ [] → s.orders = []) ∧ ∀ t ∈ s.trades, t.size ≠ 0

/-- Order on optional stop-losses of a long trade: an unset stop is
below every stop. -/
def slLe : Option ℚ → Option ℚ → Prop
  | none, _ => True
  | some _, none => False
  | some a, some b => a ≤ b

/-- Order on optional stop-losses of a short trade: an unset stop is
above every stop. -/
def slGe : Option ℚ → Option ℚ → Prop
  | none, _ => True
  | some _, none => False
  | some a, some b => b ≤ a

/-- A sequence of structural stop-tightening calls, each with its own
history window and parameters, applied in order. -/
def seqUpdate (s : StratState) (calls : List (List ℚ × List ℚ × List ℚ × ℕ × ℚ)) :
    StratState :=
  calls.foldl
    (fun st c => updateProfitTrailingSl st c.1 c.2.1 c.2.2.1 c.2.2.2.1 c.2.2.2.2)
    s

/-! Model of the JSON suggestion parser in strategy_ai.py.  A parsed
JSON document is a JVal; the raw input string is abstracted as
Option JVal, where none stands for any input on which json.loads raises
(invalid JSON); that exception is caught and turned into []. -/

inductive JVal where
  | jnull
  | jbool (b : Bool)
  | jnum (q : ℚ)
  | jstr (s : String)
  | jarr (items : List JVal)
  | jobj (fields : List (String × JVal))

/-- Python str() applied to a decoded JSON value, as in
str(item.get(key, '')).  Only its value on strings matters to the
theorems below; the renderings of the other constructors abstract the
Python reprs (all of them nonempty). -/
def pyStr : JVal → String
  | .jnull => "None"
  | .jbool true => "True"
  | .jbool false => "False"
  | .jnum q => toString q
  | .jstr s => s
  | .jarr _ => "[...]"
  | .jobj _ => "\x7b...\x7d"

structure Suggestion where
  change : String
  rationale : String
  implementation_hint : String

/-- str(item.get(key, '')): the rendered field value, or the empty
string when the key is absent. -/
def strField (fields : List (String × JVal)) (key : String) : String :=
  match fields.lookup key with
  | some v => pyStr v
  | none => ""

/-- One loop iteration of parse_suggestions: non-dict items are skipped,
and a dict is kept exactly when its stripped change field is nonempty. -/
def parseItem : JVal → Option Suggestion
  | .jobj fields =>
    if (strField fields "change").trim = "" then none
    else some ⟨(strField fields "change").trim,
      (strField fields "rationale").trim,
      (strField fields "implementation_hint").trim⟩
  | _ => none

/-- parse_suggestions: [] on undecodable input (none) and on any decoded
value that is not a JSON list; otherwise the cleaned records. -/
def parse_suggestions : Option JVal → List Suggestion
  | some (.jarr items) => items.filterMap parseItem
  | _ => []

/-! Helper lemmas. -/

theorem optLtB_none_right (a : Option ℚ) : optLtB a none = false := by
  cases a <;> rfl

theorem optLtB_none_left (b : Option ℚ) : optLtB none b = false := by
  cases b <;> rfl

theorem sma_none_of_lt (w : ℕ) (xs : List ℚ) (j : ℕ) (h : j + 1 < w) :
    sma w xs j = none := by
  unfold sma
  rw [if_neg]
  rintro ⟨hle, -⟩
  omega

theorem ao_shift_none (highs lows : List ℚ) (i : ℕ) (h : i < 34) :
    shiftOpt 1 (ao highs lows) i = none := by
  unfold shiftOpt
  split
  · rfl
  · unfold ao
    rw [sma_none_of_lt 34 (medians highs lows) (i - 1) (by omega)]
    cases sma 5 (medians highs lows) (i - 1) <;> rfl

/-- C7: for every bar index i below 34 (the slow oscillator lookback)
the detector emits no signal: the oscillator value of bar i-1 is still
undefined there, so both oscillator-slope conditions are false and the
signal is 0.  The detector is a total function, so undefined indicator
inputs can never raise. -/
theorem c7_no_signal_before_34 (opens highs lows closes : List ℚ) (i : ℕ)
    (h : i < 34) : divergentSignal opens highs lows closes i = 0 := by
  have hdown : aoDown highs lows i = false := by
    unfold aoDown
    rw [ao_shift_none highs lows i h, optLtB_none_right]
  have hup : aoUp highs lows i = false := by
    unfold aoUp
    rw [ao_shift_none highs lows i h, optLtB_none_left]
  simp [divergentSignal, bullishBar, bearishBar, hdown, hup]

/-- Witness for C7 at a concrete short history and bar index. -/
theorem c7_no_signal_before_34_witness :
    divergentSignal [1, 2] [3, 4] [1, 1] [2, 3] 1 = 0 :=
  c7_no_signal_before_34 [1, 2] [3, 4] [1, 1] [2, 3] 1 (by omega)

/-- C8 counterexample: the claim says the most recent s bars of each
envelope line are undefined, but on a 21-bar constant history the jaw
line (shift 8) is defined at the last bar, index 20, with value 5. -/
theorem c8_counterexample :
    jaw (List.replicate 21 (5 : ℚ)) 20 = some 5 := by
  norm_num [jaw, shiftOpt, sma, List.replicate]

/-- C8 (amended): each envelope line reported at bar i equals the w-bar
rolling mean of Close as of bar i-s for (w,s) in (13,8), (8,5), (5,3),
and it is the first s bars of each line (not the most recent s bars)
that are undefined at the start of history. -/
theorem c8_envelope_shift (closes : List ℚ) (i : ℕ) :
    (8 ≤ i → jaw closes i = sma 13 closes (i - 8)) ∧
    (i < 8 → jaw closes i = none) ∧
    (5 ≤ i → teeth closes i = sma 8 closes (i - 5)) ∧
    (i < 5 → teeth closes i = none) ∧
    (3 ≤ i → lips closes i = sma 5 closes (i - 3)) ∧
    (i < 3 → lips closes i = none) := by
  refine ⟨fun h => ?_, fun h => ?_, fun h => ?_, fun h => ?_,
    fun h => ?_, fun h => ?_⟩ <;>
    simp [jaw, teeth, lips, shiftOpt] <;> omega

/-- Witness for C8 at a concrete history and bar index. -/
theorem c8_envelope_shift_witness :
    jaw (List.replicate 21 (5 : ℚ)) 9 = sma 13 (List.replicate 21 (5 : ℚ)) 1 :=
  (c8_envelope_shift (List.replicate 21 (5 : ℚ)) 9).1 (by omega)

/-- C1: evaluation of the detector at the failing input.  At bar 34 of
the concrete history every condition the code tests holds while the
bar's Low (20) lies above the whole envelope (minimum 5), so the
claimed condition Low below the envelope minimum fails; the code still
returns Bullish (1) because the comparison of Low against the envelope
minimum, although listed in the function's own docstring, is absent
from the implemented conjunction. -/
theorem c1_code_eval :
    divergentSignal c1opens c1highs c1lows c1closes 34 = 1 ∧
    minAlligator c1closes 34 = some 5 ∧
    c1lows.getD 34 0 = 20 ∧ ¬(c1lows.getD 34 0 < 5) := by
  set_option maxHeartbeats 1000000 in
  norm_num [divergentSignal, bullishBar, bearishBar, upperHalf, lowerHalf,
    aoDown, aoUp, localMin, localMax, noCross, minAlligator, maxAlligator,
    jaw, teeth, lips, ao, sma, medians, shiftOpt, atIdx, optLtB, omin, omax,
    c1opens, c1highs, c1lows, c1closes, List.replicate]

/-- C5: the order placed on a bullish signal triggers at the bar's
High with initial stop-loss Low - (High - Low) and records the bar's
Low as cancel threshold; on a bearish signal it triggers at the bar's
Low with stop-loss High + (High - Low) and records the bar's High. -/
theorem c5_order_levels (s : StratState) (high low : ℚ) :
    (placeDivergentOrder 1 high low s).orders =
      s.orders ++ [⟨true, high, low - (high - low)⟩] ∧
    (placeDivergentOrder 1 high low s).cancelPrice = some low ∧
    (placeDivergentOrder (-1) high low s).orders =
      s.orders ++ [⟨false, low, high + (high - low)⟩] ∧
    (placeDivergentOrder (-1) high low s).cancelPrice = some high := by
  refine ⟨?_, ?_, ?_, ?_⟩ <;>
    norm_num [placeDivergentOrder, newLongOrder, newShortOrder]

/-- C10: calling the structural stop-tightening while no position is
open (position size 0) returns the state unchanged: no trade stop-loss
and no other manager state is touched, and nothing is raised. -/
theorem c10_trailing_noop_when_flat (s : StratState)
    (highs lows closes : List ℚ) (n : ℕ) (buffer : ℚ)
    (h : positionSize s = 0) :
    updateProfitTrailingSl s highs lows closes n buffer = s := by
  unfold updateProfitTrailingSl
  rw [if_pos h]

/-- Witness for C10 on a concrete flat state. -/
theorem c10_trailing_noop_when_flat_witness :
    positionSize ⟨[], [], none⟩ = 0 ∧
    updateProfitTrailingSl ⟨[], [], none⟩ [3] [1] [2] 5 0 = ⟨[], [], none⟩ :=
  ⟨rfl, c10_trailing_noop_when_flat ⟨[], [], none⟩ [3] [1] [2] 5 0 rfl⟩

/-- C2 counterexample: a short position (size -1, entry 100) with an
unrealized loss (pl = -5) receives an opposite bullish signal on a bar
with High 105, Low 100; the claim says the position must stay open and
no order may be placed, but next() closes the position and places the
reversal order in the same call. -/
theorem c2_counterexample :
    (next ⟨[], [⟨-1, 100, none⟩], none⟩ [105] [100] [102] 1 (-5)).trades
      = [] ∧
    (next ⟨[], [⟨-1, 100, none⟩], none⟩ [105] [100] [102] 1 (-5)).orders
      = [⟨true, 105, 95⟩] := by
  norm_num [next, positionSize, placeDivergentOrder, newLongOrder,
    List.getLastD]

/-- C2 (amended): on an opposite signal next() closes the position and
places the reversal order unconditionally, for any unrealized
profit/loss pl; profitability gates only the trailing-stop update of
the non-reversal branch. -/
theorem c2_reversal_regardless_of_pl (s : StratState)
    (highs lows closes : List ℚ) (signal : ℤ) (pl : ℚ)
    (hop : (0 < signal ∧ positionSize s < 0) ∨
      (signal < 0 ∧ 0 < positionSize s)) :
    (next s highs lows closes signal pl).trades = [] ∧
    (next s highs lows closes signal pl).orders.length =
      s.orders.length + 1 := by
  have hsz : positionSize s ≠ 0 := by
    rcases hop with ⟨h1, h2⟩ | ⟨h1, h2⟩ <;> omega
  have hsig : signal ≠ 0 := by
    rcases hop with ⟨h1, h2⟩ | ⟨h1, h2⟩ <;> omega
  unfold next
  rw [if_pos hsz, if_pos ⟨hsig, hop⟩]
  unfold placeDivergentOrder
  rcases hop with ⟨h1, h2⟩ | ⟨h1, h2⟩
  · rw [if_pos h1]
    exact ⟨rfl, by simp⟩
  · rw [if_neg (by omega), if_pos h1]
    exact ⟨rfl, by simp⟩

/-- Witness for C2 (amended) on the concrete losing short position. -/
theorem c2_reversal_regardless_of_pl_witness :
    (next ⟨[], [⟨-1, 100, none⟩], none⟩ [105] [100] [102] 1 (-5)).trades
      = [] ∧
    (next ⟨[], [⟨-1, 100, none⟩], none⟩ [105] [100] [102] 1 (-5)).orders.length
      = 1 :=
  c2_reversal_regardless_of_pl ⟨[], [⟨-1, 100, none⟩], none⟩
    [105] [100] [102] 1 (-5)
    (Or.inl ⟨by norm_num, by norm_num [positionSize]⟩)

/-- C6 counterexample: a pending long order with cancel threshold 9 and
no position, on a bar with Low 9 (at the threshold) that also carries a
bearish signal: the claim says the state returns to Flat, but next()
places a fresh short order on the same bar, so the final state is not
Flat. -/
theorem c6_counterexample :
    (next ⟨[⟨true, 10, 8⟩], [], some 9⟩ [12] [9] [11] (-1) 0).orders
      = [⟨false, 9, 15⟩] := by
  norm_num [next, positionSize, cancelByPrice, keepOrder,
    placeDivergentOrder, newShortOrder, List.getLastD]

/-- C6 (amended): with no open position, a pending order and a stored
cancel threshold crossed by the current bar's extreme (Low at or below
the threshold for a long order, High at or above it for a short one),
next() cancels the pending order; the state is Flat afterwards when the
bar's signal is None, and otherwise exactly one fresh order placed from
the current bar replaces the cancelled one. -/
theorem next_flat (s : StratState) (highs lows closes : List ℚ)
    (signal : ℤ) (pl : ℚ) (hs : positionSize s = 0) :
    next s highs lows closes signal pl =
      if signal = 0 then cancelByPrice s (highs.getLastD 0) (lows.getLastD 0)
      else placeDivergentOrder signal (highs.getLastD 0) (lows.getLastD 0)
        { cancelByPrice s (highs.getLastD 0) (lows.getLastD 0) with
            orders := [] } := by
  unfold next
  rw [if_neg (by omega)]

theorem c6_helper (o : PendingOrder) (cp hi lo : ℚ) (signal : ℤ)
    (hcross : (o.isLong = true ∧ lo ≤ cp) ∨ (o.isLong = false ∧ cp ≤ hi)) :
    (if signal = 0 then cancelByPrice ⟨[o], [], some cp⟩ hi lo
     else placeDivergentOrder signal hi lo
       { cancelByPrice ⟨[o], [], some cp⟩ hi lo with orders := [] }).trades
      = [] ∧
    (if signal = 0 then cancelByPrice ⟨[o], [], some cp⟩ hi lo
     else placeDivergentOrder signal hi lo
       { cancelByPrice ⟨[o], [], some cp⟩ hi lo with orders := [] }).orders
      = (if 0 < signal then [newLongOrder hi lo]
         else if signal < 0 then [newShortOrder hi lo] else []) := by
  have hkeep : keepOrder cp hi lo o = false := by
    rcases hcross with ⟨hl, hle⟩ | ⟨hl, hle⟩ <;> unfold keepOrder <;> rw [hl]
    · rw [if_pos rfl]
      exact decide_eq_false (not_lt.mpr hle)
    · rw [if_neg (by simp)]
      exact decide_eq_false (not_lt.mpr hle)
  have hcancel : cancelByPrice ⟨[o], [], some cp⟩ hi lo = ⟨[], [], some cp⟩ := by
    unfold cancelByPrice
    dsimp only
    rw [if_neg (by simp)]
    simp [hkeep]
  rcases lt_trichotomy signal 0 with hlt | heq | hgt
  · rw [if_neg (by omega), hcancel]
    unfold placeDivergentOrder
    rw [if_neg (by omega), if_pos hlt, if_neg (by omega), if_pos hlt]
    exact ⟨rfl, rfl⟩
  · subst heq
    rw [if_pos rfl, hcancel, if_neg (by omega), if_neg (by omega)]
    exact ⟨rfl, rfl⟩
  · rw [if_neg (by omega), hcancel]
    unfold placeDivergentOrder
    rw [if_pos hgt, if_pos hgt]
    exact ⟨rfl, rfl⟩

/-- C6 (amended): with no open position, a pending order and a stored
cancel threshold crossed by the current bar's extreme (Low at or below
the threshold for a long order, High at or above it for a short one),
next() cancels the pending order; the state is Flat afterwards when the
bar's signal is None, and otherwise exactly one fresh order placed from
the current bar replaces the cancelled one. -/
theorem c6_cancel_on_threshold (s : StratState)
    (highs lows closes : List ℚ) (signal : ℤ) (pl : ℚ)
    (o : PendingOrder) (cp : ℚ)
    (ht : s.trades = []) (ho : s.orders = [o]) (hc : s.cancelPrice = some cp)
    (hcross : (o.isLong = true ∧ lows.getLastD 0 ≤ cp) ∨
      (o.isLong = false ∧ cp ≤ highs.getLastD 0)) :
    (next s highs lows closes signal pl).trades = [] ∧
    (next s highs lows closes signal pl).orders =
      (if 0 < signal then
        [newLongOrder (highs.getLastD 0) (lows.getLastD 0)]
       else if signal < 0 then
        [newShortOrder (highs.getLastD 0) (lows.getLastD 0)]
       else []) := by
  obtain ⟨ords, trs, cpr⟩ := s
  dsimp only at ht ho hc
  subst ht ho hc
  rw [next_flat _ _ _ _ _ _ (by simp [positionSize])]
  exact c6_helper o cp (highs.getLastD 0) (lows.getLastD 0) signal hcross

/-- Witness for C6 (amended): the long pending order is swept and the
state is Flat on a signal-free bar whose Low retreats to the threshold. -/
theorem c6_cancel_on_threshold_witness :
    (next ⟨[⟨true, 10, 8⟩], [], some 9⟩ [12] [9] [11] 0 0).trades = [] ∧
    (next ⟨[⟨true, 10, 8⟩], [], some 9⟩ [12] [9] [11] 0 0).orders =
      (if (0:ℤ) < 0 then [newLongOrder (List.getLastD [12] 0) (List.getLastD [9] 0)]
       else if (0:ℤ) < 0 then [newShortOrder (List.getLastD [12] 0) (List.getLastD [9] 0)]
       else []) :=
  c6_cancel_on_threshold ⟨[⟨true, 10, 8⟩], [], some 9⟩ [12] [9] [11] 0 0
    ⟨true, 10, 8⟩ 9 rfl rfl rfl (Or.inl ⟨rfl, by norm_num [List.getLastD]⟩)

theorem slLe_refl (a : Option ℚ) : slLe a a := by
  cases a
  · trivial
  · exact le_refl _

theorem slGe_refl (a : Option ℚ) : slGe a a := by
  cases a
  · trivial
  · exact le_refl _

theorem slLe_trans (a b c : Option ℚ) (h1 : slLe a b) (h2 : slLe b c) :
    slLe a c := by
  cases a
  · trivial
  · cases b
    · exact absurd h1 (by simp [slLe])
    · cases c
      · exact absurd h2 (by simp [slLe])
      · exact le_trans h1 h2

theorem slGe_trans (a b c : Option ℚ) (h1 : slGe a b) (h2 : slGe b c) :
    slGe a c := by
  cases a
  · trivial
  · cases b
    · exact absurd h1 (by simp [slGe])
    · cases c
      · exact absurd h2 (by simp [slGe])
      · exact le_trans h2 h1

/-- Everything a single updateTradeSl step guarantees: direction and
entry are untouched, the stop only moves the protecting way, and it
moves only to a level beyond both the entry and the previous stop. -/
theorem updateTradeSl_step (L S : ℚ) (t : Trade) :
    (updateTradeSl L S t).size = t.size ∧
    (updateTradeSl L S t).entryPrice = t.entryPrice ∧
    (0 < t.size → slLe t.sl (updateTradeSl L S t).sl ∧
      ((updateTradeSl L S t).sl ≠ t.sl →
        (updateTradeSl L S t).sl = some L ∧ t.entryPrice < L ∧
          ∀ c, t.sl = some c → c < L)) ∧
    (t.size < 0 → slGe t.sl (updateTradeSl L S t).sl ∧
      ((updateTradeSl L S t).sl ≠ t.sl →
        (updateTradeSl L S t).sl = some S ∧ S < t.entryPrice ∧
          ∀ c, t.sl = some c → S < c)) := by
  unfold updateTradeSl
  by_cases hpos : 0 < t.size
  · rw [if_pos hpos]
    by_cases hent : t.entryPrice < L
    · rw [if_pos hent]
      by_cases hb : slBelow t.sl L = true
      · rw [if_pos hb]
        refine ⟨rfl, rfl, fun _ => ⟨?_, fun _ => ⟨rfl, hent, ?_⟩⟩,
          fun hneg => absurd hpos (by omega)⟩
        · cases hsl : t.sl with
          | none => trivial
          | some c =>
            rw [hsl] at hb
            exact le_of_lt (of_decide_eq_true hb)
        · intro c hc
          rw [hc] at hb
          exact of_decide_eq_true hb
      · rw [if_neg hb]
        exact ⟨rfl, rfl, fun _ => ⟨slLe_refl _, fun hne => absurd rfl hne⟩,
          fun hneg => absurd hpos (by omega)⟩
    · rw [if_neg hent]
      exact ⟨rfl, rfl, fun _ => ⟨slLe_refl _, fun hne => absurd rfl hne⟩,
        fun hneg => absurd hpos (by omega)⟩
  · rw [if_neg hpos]
    by_cases hneg : t.size < 0
    · rw [if_pos hneg]
      by_cases hent : S < t.entryPrice
      · rw [if_pos hent]
        by_cases hb : slAbove t.sl S = true
        · rw [if_pos hb]
          refine ⟨rfl, rfl, fun hp => absurd hp hpos,
            fun _ => ⟨?_, fun _ => ⟨rfl, hent, ?_⟩⟩⟩
          · cases hsl : t.sl with
            | none => trivial
            | some c =>
              rw [hsl] at hb
              exact le_of_lt (of_decide_eq_true hb)
          · intro c hc
            rw [hc] at hb
            exact of_decide_eq_true hb
        · rw [if_neg hb]
          exact ⟨rfl, rfl, fun hp => absurd hp hpos,
            fun _ => ⟨slGe_refl _, fun hne => absurd rfl hne⟩⟩
      · rw [if_neg hent]
        exact ⟨rfl, rfl, fun hp => absurd hp hpos,
          fun _ => ⟨slGe_refl _, fun hne => absurd rfl hne⟩⟩
    · rw [if_neg hneg]
      exact ⟨rfl, rfl, fun hp => absurd hp hpos, fun hn => absurd hn hneg⟩

/-- Lifting updateTradeSl_step through one updateProfitTrailingSl call:
the trade at index k keeps its direction and entry, and its stop-loss
moves only the protecting way, only to a level beyond entry and the
previous stop. -/
theorem trailing_step (s : StratState) (highs lows closes : List ℚ)
    (n : ℕ) (buffer : ℚ) (k : ℕ) (t : Trade)
    (hk : s.trades.get? k = some t) :
    ∃ t', (updateProfitTrailingSl s highs lows closes n buffer).trades.get? k
        = some t' ∧
      t'.size = t.size ∧ t'.entryPrice = t.entryPrice ∧
      (0 < t.size → slLe t.sl t'.sl ∧
        (t'.sl ≠ t.sl → ∃ L, t'.sl = some L ∧ t.entryPrice < L ∧
          ∀ c, t.sl = some c → c < L)) ∧
      (t.size < 0 → slGe t.sl t'.sl ∧
        (t'.sl ≠ t.sl → ∃ L, t'.sl = some L ∧ L < t.entryPrice ∧
          ∀ c, t.sl = some c → L < c)) := by
  unfold updateProfitTrailingSl
  by_cases hp : positionSize s = 0
  · rw [if_pos hp]
    exact ⟨t, hk, rfl, rfl,
      fun _ => ⟨slLe_refl _, fun hne => absurd rfl hne⟩,
      fun _ => ⟨slGe_refl _, fun hne => absurd rfl hne⟩⟩
  · rw [if_neg hp]
    obtain ⟨h1, h2, h3, h4⟩ := updateTradeSl_step
      (listMax (lastWindow (min closes.length n) lows) - buffer)
      (listMin (lastWindow (min closes.length n) highs) + buffer) t
    refine ⟨_, ?_, h1, h2, fun hpos => ⟨(h3 hpos).1, fun hne => ?_⟩,
      fun hneg => ⟨(h4 hneg).1, fun hne => ?_⟩⟩
    · show (s.trades.map _).get? k = _
      rw [List.get?_map, hk]
      rfl
    · obtain ⟨he, hent, hc⟩ := (h3 hpos).2 hne
      exact ⟨_, he, hent, hc⟩
    · obtain ⟨he, hent, hc⟩ := (h4 hneg).2 hne
      exact ⟨_, he, hent, hc⟩

/-- Endpoint monotonicity over any sequence of tightening calls. -/
theorem trailing_seq (calls : List (List ℚ × List ℚ × List ℚ × ℕ × ℚ))
    (s : StratState) (k : ℕ) (t : Trade) (hk : s.trades.get? k = some t) :
    ∃ t', (seqUpdate s calls).trades.get? k = some t' ∧
      t'.size = t.size ∧ t'.entryPrice = t.entryPrice ∧
      (0 < t.size → slLe t.sl t'.sl) ∧ (t.size < 0 → slGe t.sl t'.sl) := by
  induction calls generalizing s t with
  | nil => exact ⟨t, hk, rfl, rfl, fun _ => slLe_refl _, fun _ => slGe_refl _⟩
  | cons c rest ih =>
    obtain ⟨t1, hk1, hsz1, hen1, hle1, hge1⟩ :=
      trailing_step s c.1 c.2.1 c.2.2.1 c.2.2.2.1 c.2.2.2.2 k t hk
    obtain ⟨t2, hk2, hsz2, hen2, hle2, hge2⟩ := ih _ _ hk1
    refine ⟨t2, hk2, hsz2.trans hsz1, hen2.trans hen1, fun hpos => ?_,
      fun hneg => ?_⟩
    · exact slLe_trans _ _ _ ((hle1 hpos).1)
        (hle2 (by rw [hsz1]; exact hpos))
    · exact slGe_trans _ _ _ ((hge1 hneg).1)
        (hge2 (by rw [hsz1]; exact hneg))

/-- C3: the stop ratchet.  Across one structural-tightening call the
trade at any index keeps its direction and entry price; for a long
trade the stop-loss never decreases and changes only to a structural
level strictly above both the entry price and the previous stop; for a
short trade it never increases and changes only to a level strictly
below both; and across any sequence of tightening calls the stop-loss
sequence of a long trade is non-decreasing and that of a short trade is
non-increasing. -/
theorem c3_stop_ratchet :
    (∀ (s : StratState) (highs lows closes : List ℚ) (n : ℕ) (buffer : ℚ)
      (k : ℕ) (t : Trade), s.trades.get? k = some t →
      ∃ t', (updateProfitTrailingSl s highs lows closes n buffer).trades.get? k
          = some t' ∧
        t'.size = t.size ∧ t'.entryPrice = t.entryPrice ∧
        (0 < t.size → slLe t.sl t'.sl ∧
          (t'.sl ≠ t.sl → ∃ L, t'.sl = some L ∧ t.entryPrice < L ∧
            ∀ c, t.sl = some c → c < L)) ∧
        (t.size < 0 → slGe t.sl t'.sl ∧
          (t'.sl ≠ t.sl → ∃ L, t'.sl = some L ∧ L < t.entryPrice ∧
            ∀ c, t.sl = some c → L < c))) ∧
    (∀ (calls : List (List ℚ × List ℚ × List ℚ × ℕ × ℚ)) (s : StratState)
      (k : ℕ) (t : Trade), s.trades.get? k = some t →
      ∃ t', (seqUpdate s calls).trades.get? k = some t' ∧
        t'.size = t.size ∧ t'.entryPrice = t.entryPrice ∧
        (0 < t.size → slLe t.sl t'.sl) ∧ (t.size < 0 → slGe t.sl t'.sl)) :=
  ⟨fun s highs lows closes n buffer k t hk =>
      trailing_step s highs lows closes n buffer k t hk,
    fun calls s k t hk => trailing_seq calls s k t hk⟩

/-- Witness for C3 on Scenario C of the spec: long trade entered at 9
with stop 8, window lows 10, 12, 11, structural level 12; the call
raises the stop to 12. -/
theorem c3_stop_ratchet_witness :
    ∃ t', (updateProfitTrailingSl ⟨[], [⟨1, 9, some 8⟩], none⟩
        [13, 12, 11] [10, 12, 11] [10, 12, 11] 3 0).trades.get? 0 = some t' ∧
      t'.size = (1 : ℤ) ∧ t'.entryPrice = (9 : ℚ) ∧
      (0 < (1 : ℤ) → slLe (some 8) t'.sl ∧
        (t'.sl ≠ some 8 → ∃ L, t'.sl = some L ∧ (9 : ℚ) < L ∧
          ∀ c, (some 8 : Option ℚ) = some c → c < L)) ∧
      ((1 : ℤ) < 0 → slGe (some 8) t'.sl ∧
        (t'.sl ≠ some 8 → ∃ L, t'.sl = some L ∧ L < (9 : ℚ) ∧
          ∀ c, (some 8 : Option ℚ) = some c → L < c)) :=
  c3_stop_ratchet.1 ⟨[], [⟨1, 9, some 8⟩], none⟩
    [13, 12, 11] [10, 12, 11] [10, 12, 11] 3 0 0 ⟨1, 9, some 8⟩ rfl

theorem stateInv_init : StateInv ⟨[], [], none⟩ := by
  refine ⟨by simp, by simp, fun h => rfl, fun t htm => absurd htm (by simp)⟩

/-- Under the invariant, zero position size forces an empty trade list. -/
theorem trades_nil_of_size_zero (s : StratState) (hinv : StateInv s)
    (hs : positionSize s = 0) : s.trades = [] := by
  obtain ⟨-, ht1, -, hsz⟩ := hinv
  cases htr : s.trades with
  | nil => rfl
  | cons t ts =>
    exfalso
    have hts : ts = [] := by
      rw [htr] at ht1
      simp only [List.length_cons] at ht1
      exact List.eq_nil_of_length_eq_zero (by omega)
    have hsum : positionSize s = t.size := by
      unfold positionSize
      rw [htr, hts]
      simp
    exact hsz t (by rw [htr]; exact List.mem_cons_self t ts)
      (by rw [← hsum]; exact hs)

/-- placeDivergentOrder preserves the invariant when starting from a
state with no order and no trade. -/
theorem stateInv_place (direction : ℤ) (high low : ℚ) (cp : Option ℚ) :
    StateInv (placeDivergentOrder direction high low ⟨[], [], cp⟩) := by
  unfold placeDivergentOrder
  rcases lt_trichotomy direction 0 with hlt | heq | hgt
  · rw [if_neg (by omega), if_pos hlt]
    exact ⟨by simp, by simp, fun h => absurd rfl h, fun t htm => absurd htm (by simp)⟩
  · subst heq
    rw [if_neg (by omega), if_neg (by omega)]
    exact ⟨by simp, by simp, fun h => absurd rfl h, fun t htm => absurd htm (by simp)⟩
  · rw [if_pos hgt]
    exact ⟨by simp, by simp, fun h => absurd rfl h, fun t htm => absurd htm (by simp)⟩

/-- The strategy step preserves the single-order single-trade invariant. -/
theorem stateInv_next (s : StratState) (highs lows closes : List ℚ)
    (signal : ℤ) (pl : ℚ) (hinv : StateInv s) :
    StateInv (next s highs lows closes signal pl) := by
  obtain ⟨ho1, ht1, hto, hsz⟩ := hinv
  unfold next
  by_cases hp : positionSize s ≠ 0
  · rw [if_pos hp]
    have htr : s.trades ≠ [] := by
      intro hnil
      exact hp (by simp [positionSize, hnil])
    have hord : s.orders = [] := hto htr
    by_cases hop : signal ≠ 0 ∧ ((0 < signal ∧ positionSize s < 0) ∨
        (signal < 0 ∧ 0 < positionSize s))
    · rw [if_pos hop]
      have : ({ s with trades := [] } : StratState) = ⟨[], [], s.cancelPrice⟩ := by
        rw [StratState.mk.injEq]
        exact ⟨hord, rfl, rfl⟩
      rw [this]
      exact stateInv_place signal _ _ _
    · rw [if_neg hop]
      by_cases hpl : 0 < pl
      · rw [if_pos hpl]
        unfold updateProfitTrailingSl
        rw [if_neg (by omega)]
        refine ⟨ho1, by simp [ht1], fun h => hord, fun t ht => ?_⟩
        obtain ⟨t0, ht0, heq⟩ := List.mem_map.mp ht
        rw [← heq, (updateTradeSl_step _ _ t0).1]
        exact hsz t0 ht0
      · rw [if_neg hpl]
        exact ⟨ho1, ht1, hto, hsz⟩
  · rw [if_neg hp]
    push_neg at hp
    have htr : s.trades = [] := trades_nil_of_size_zero s ⟨ho1, ht1, hto, hsz⟩ hp
    by_cases hsig : signal = 0
    · rw [if_pos hsig]
      unfold cancelByPrice
      cases hc : s.cancelPrice with
      | none => exact ⟨ho1, ht1, hto, hsz⟩
      | some cp =>
        dsimp only
        by_cases he : s.orders.isEmpty = true
        · rw [if_pos he]
          exact ⟨ho1, ht1, hto, hsz⟩
        · rw [if_neg he]
          refine ⟨le_trans (List.length_filter_le _ _) ho1, ht1,
            fun h => absurd htr h, fun t ht => hsz t ht⟩
    · rw [if_neg hsig]
      have : ({ cancelByPrice s (highs.getLastD 0) (lows.getLastD 0) with
          orders := [] } : StratState) =
          ⟨[], [], (cancelByPrice s (highs.getLastD 0) (lows.getLastD 0)).cancelPrice⟩ := by
        rw [StratState.mk.injEq]
        refine ⟨rfl, ?_, rfl⟩
        unfold cancelByPrice
        cases s.cancelPrice with
        | none => exact htr
        | some cp =>
          dsimp only
          by_cases he : s.orders.isEmpty = true
          · rw [if_pos he]
            exact htr
          · rw [if_neg he]
            exact htr
      rw [this]
      exact stateInv_place signal _ _ _

/-- The engine fill step preserves the invariant. -/
theorem stateInv_fill (s : StratState) (o : PendingOrder)
    (hinv : StateInv s) (ho : o ∈ s.orders) :
    StateInv ⟨s.orders.erase o, s.trades ++ [mkTrade o], s.cancelPrice⟩ := by
  obtain ⟨ho1, ht1, hto, hsz⟩ := hinv
  have hords : s.orders = [o] := by
    cases hor : s.orders with
    | nil => rw [hor] at ho; exact absurd ho (by simp)
    | cons a l =>
      rw [hor] at ho1 ho
      have hl : l = [] := by
        simp only [List.length_cons] at ho1
        exact List.eq_nil_of_length_eq_zero (by omega)
      subst hl
      simp at ho
      rw [ho]
  have htrs : s.trades = [] := by
    by_contra h
    rw [hto h] at hords
    exact absurd hords (by simp)
  refine ⟨?_, ?_, fun h => ?_, fun t ht => ?_⟩
  · rw [hords]
    simp
  · rw [htrs]
    simp
  · rw [hords]
    simp
  · rw [htrs] at ht
    simp at ht
    rw [ht]
    unfold mkTrade
    cases o.isLong <;> simp
/-- The engine stop-out step preserves the invariant. -/
theorem stateInv_stop (s : StratState) (t : Trade)
    (hinv : StateInv s) (ht : t ∈ s.trades) :
    StateInv ⟨s.orders, s.trades.erase t, s.cancelPrice⟩ := by
  obtain ⟨ho1, ht1, hto, hsz⟩ := hinv
  refine ⟨ho1, le_trans (List.length_erase_le _ _) ht1, fun h => ?_, fun u hu => ?_⟩
  · exact hto (fun hnil => h (by rw [hnil]; rfl))
  · exact hsz u (List.mem_of_mem_erase hu)

/-- Every reachable state satisfies the invariant. -/
theorem reachable_stateInv (s : StratState) (h : Reachable s) : StateInv s := by
  induction h with
  | init => exact stateInv_init
  | step_next s highs lows closes signal pl _ ih =>
      exact stateInv_next s highs lows closes signal pl ih
  | step_fill s o _ ho ih => exact stateInv_fill s o ih ho
  | step_stop s t _ ht ih => exact stateInv_stop s t ih ht

/-- C4: after processing any bar from any reachable state of the
order/position state machine, at most one pending stop-entry order and
at most one open trade exist. -/
theorem c4_at_most_one_order_and_position (s : StratState)
    (h : Reachable s) (highs lows closes : List ℚ) (signal : ℤ) (pl : ℚ) :
    (next s highs lows closes signal pl).orders.length ≤ 1 ∧
    (next s highs lows closes signal pl).trades.length ≤ 1 := by
  obtain ⟨h1, h2, -, -⟩ := stateInv_next s highs lows closes signal pl
    (reachable_stateInv s h)
  exact ⟨h1, h2⟩

/-- Witness for C4: one bar processed from the initial flat state with
a bullish signal. -/
theorem c4_at_most_one_order_and_position_witness :
    (next ⟨[], [], none⟩ [10] [5] [7] 1 0).orders.length ≤ 1 ∧
    (next ⟨[], [], none⟩ [10] [5] [7] 1 0).trades.length ≤ 1 :=
  c4_at_most_one_order_and_position ⟨[], [], none⟩ Reachable.init
    [10] [5] [7] 1 0

/-- C9: parse_suggestions is total (the raised-and-caught decode failure
is the none input) and returns a list; any input that is not a decoded
JSON list yields the empty list; and every returned record has a
nonempty change string, with rationale and implementation hint fields
present as strings by construction of the Suggestion record. -/
theorem c9_parse_suggestions_safe :
    (∀ j : Option JVal, (∀ items, j ≠ some (JVal.jarr items)) →
      parse_suggestions j = []) ∧
    (∀ (j : Option JVal) (r : Suggestion), r ∈ parse_suggestions j →
      r.change ≠ "") := by
  constructor
  · intro j hj
    match j with
    | none => rfl
    | some .jnull => rfl
    | some (.jbool b) => rfl
    | some (.jnum q) => rfl
    | some (.jstr s) => rfl
    | some (.jarr items) => exact absurd rfl (hj items)
    | some (.jobj fields) => rfl
  · intro j r hr
    match j with
    | none => exact absurd hr (by simp [parse_suggestions])
    | some .jnull => exact absurd hr (by simp [parse_suggestions])
    | some (.jbool b) => exact absurd hr (by simp [parse_suggestions])
    | some (.jnum q) => exact absurd hr (by simp [parse_suggestions])
    | some (.jstr s) => exact absurd hr (by simp [parse_suggestions])
    | some (.jobj fields) => exact absurd hr (by simp [parse_suggestions])
    | some (.jarr items) =>
      obtain ⟨a, -, ha⟩ := List.mem_filterMap.mp hr
      match a with
      | .jnull => exact absurd ha (by simp [parseItem])
      | .jbool b => exact absurd ha (by simp [parseItem])
      | .jnum q => exact absurd ha (by simp [parseItem])
      | .jstr s => exact absurd ha (by simp [parseItem])
      | .jarr l => exact absurd ha (by simp [parseItem])
      | .jobj fields =>
        simp only [parseItem] at ha
        by_cases hch : (strField fields "change").trim = ""
        · rw [if_pos hch] at ha
          exact absurd ha (by simp)
        · rw [if_neg hch] at ha
          have := Option.some.inj ha
          rw [← this]
          exact hch

/-- Witness for C9: a decoded JSON string input yields the empty list,
and membership in a parsed singleton list implies a nonempty change. -/
theorem c9_parse_suggestions_safe_witness :
    parse_suggestions (some (JVal.jstr "no list here")) = [] :=
  c9_parse_suggestions_safe.1 (some (JVal.jstr "no list here"))
    (fun items h => by cases h)
